import Mathlib

/-!
Verification of the coordinate/camera transform and data-mapping engine of
the Animation_with_JS repository.

All JavaScript numbers are modelled as exact rationals (`ℚ`).  Where the
JavaScript floating semantics genuinely matters (division `0/0` producing
`NaN`, `Math.log10` of a non-positive argument), the embedding models the
non-finite result explicitly with `Option ℚ` (`none` = no finite value) and
documents the JS behaviour at the definition.  `Math.sqrt`, whose exact
values leave `ℚ`, is abstracted as a function parameter; the theorems assume
only that it is nonnegative and definite on nonnegative inputs, which
`Math.sqrt` satisfies.
-/

/-- A 2D point, as the `{x, y}` records built throughout the repository. -/
structure Pt where
  x : ℚ
  y : ℚ
deriving DecidableEq, Repr

/-- `CameraState` from `Camera2D.tsx`: a world-space viewport rectangle. -/
structure CameraState where
  centerX : ℚ
  centerY : ℚ
  width : ℚ
  height : ℚ
deriving DecidableEq, Repr

/-! ## Camera2D: size constraints, zoom, aspect lock (Camera2D.tsx lines 114-139) -/

/-- `if (bound) v = Math.max(v, bound)`: a `minWidth`/`minHeight` constraint.
JavaScript truthiness means an absent (`none`) or zero bound is skipped. -/
def applyMin (bound : Option ℚ) (v : ℚ) : ℚ :=
  match bound with
  | some b => if b = 0 then v else max v b
  | none => v

/-- `if (bound) v = Math.min(v, bound)`: a `maxWidth`/`maxHeight` constraint.
JavaScript truthiness means an absent (`none`) or zero bound is skipped. -/
def applyMax (bound : Option ℚ) (v : ℚ) : ℚ :=
  match bound with
  | some b => if b = 0 then v else min v b
  | none => v

/-- The post-interpolation adjustment pipeline of `Camera2D` (lines 114-139),
acting on the interpolated `(currentWidth, currentHeight)`:
size constraints, then zoom multiplier, then aspect-ratio correction. -/
def cameraAdjust (minW maxW minH maxH : Option ℚ) (zoom : ℚ) (maintain : Bool)
    (sceneW sceneH w0 h0 : ℚ) : ℚ × ℚ :=
  -- if (minWidth) currentWidth = Math.max(currentWidth, minWidth); etc.
  let w1 := applyMax maxW (applyMin minW w0)
  let h1 := applyMax maxH (applyMin minH h0)
  -- if (zoomMultiplier !== 1) { currentWidth /= zoomMultiplier; currentHeight /= zoomMultiplier }
  let w2 := if zoom = 1 then w1 else w1 / zoom
  let h2 := if zoom = 1 then h1 else h1 / zoom
  -- if (maintainAspectRatio) currentHeight = currentWidth / (sceneWidth / sceneHeight)
  let sceneAspect := sceneW / sceneH
  let h3 := if maintain then w2 / sceneAspect else h2
  (w2, h3)

/-- Spec step (1): clamp width/height to the given bounds. -/
def clampStep (minW maxW minH maxH : Option ℚ) (wh : ℚ × ℚ) : ℚ × ℚ :=
  (applyMax maxW (applyMin minW wh.1), applyMax maxH (applyMin minH wh.2))

/-- Spec step (2): divide both sizes by the zoom multiplier. -/
def zoomStep (zoom : ℚ) (wh : ℚ × ℚ) : ℚ × ℚ :=
  if zoom = 1 then wh else (wh.1 / zoom, wh.2 / zoom)

/-- Spec step (3): with the aspect lock on, height is recomputed from width. -/
def aspectStep (maintain : Bool) (sceneW sceneH : ℚ) (wh : ℚ × ℚ) : ℚ × ℚ :=
  if maintain then (wh.1, wh.1 / (sceneW / sceneH)) else wh

/-- The world-to-screen transform of `Camera2D` (lines 154-170):
`scale = sceneWidth / width`, `translate = sceneSize/2 - center*scale`. -/
def transformOf (sceneW sceneH : ℚ) (s : CameraState) : ℚ × ℚ × ℚ :=
  let scale := sceneW / s.width
  let translateX := sceneW / 2 - s.centerX * scale
  let translateY := sceneH / 2 - s.centerY * scale
  (scale, translateX, translateY)

/-! ## NumberPlane2D coordinate maps (unnamed/part_005 lines 146-161) -/

/-- `mapX` of `NumberPlane2D`: `plotX + ((val - xMin) / xSpan) * plotW`
with `plotX = padding`, `plotW = width - 2*padding`. -/
def mapX (xRange : ℚ × ℚ) (width padding : ℚ) (val : ℚ) : ℚ :=
  padding + ((val - xRange.1) / (xRange.2 - xRange.1)) * (width - 2 * padding)

/-- `mapY` of `NumberPlane2D`: `plotY + plotH - ((val - yMin) / ySpan) * plotH`
with `plotY = padding`, `plotH = height - 2*padding` (screen Y inverted). -/
def mapY (yRange : ℚ × ℚ) (height padding : ℚ) (val : ℚ) : ℚ :=
  padding + (height - 2 * padding) - ((val - yRange.1) / (yRange.2 - yRange.1)) * (height - 2 * padding)

/-! ## Claims C1, C2, C3, C10 -/

/-- C1: for every viewport with positive width, the derived transform has
`scale = sceneWidth/width`, `translateX = sceneWidth/2 - centerX*scale`,
`translateY = sceneHeight/2 - centerY*scale`, and mapping the viewport
center through `worldPt*scale + translate` gives exactly the screen center
`(sceneWidth/2, sceneHeight/2)` (exact equality, hence within 1e-6). -/
theorem camera_transform_roundtrip (sceneW sceneH : ℚ) (s : CameraState)
    (hw : 0 < s.width) :
    (transformOf sceneW sceneH s).1 = sceneW / s.width ∧
    (transformOf sceneW sceneH s).2.1 = sceneW / 2 - s.centerX * (sceneW / s.width) ∧
    (transformOf sceneW sceneH s).2.2 = sceneH / 2 - s.centerY * (sceneW / s.width) ∧
    s.centerX * (transformOf sceneW sceneH s).1 + (transformOf sceneW sceneH s).2.1 = sceneW / 2 ∧
    s.centerY * (transformOf sceneW sceneH s).1 + (transformOf sceneW sceneH s).2.2 = sceneH / 2 := by
  refine ⟨rfl, rfl, rfl, ?_, ?_⟩ <;> simp only [transformOf] <;> ring

/-- Witness for C1 at a concrete viewport. -/
theorem camera_transform_roundtrip_witness :
    0 < (CameraState.mk 3 4 2 5).width ∧
    (CameraState.mk 3 4 2 5).centerX * (transformOf 1920 1080 (CameraState.mk 3 4 2 5)).1 +
      (transformOf 1920 1080 (CameraState.mk 3 4 2 5)).2.1 = 1920 / 2 :=
  ⟨by norm_num, (camera_transform_roundtrip 1920 1080 (CameraState.mk 3 4 2 5) (by norm_num)).2.2.2.1⟩

/-- C2: for a valid configuration (nondegenerate ranges, plot larger than the
padding), `mapX` is strictly increasing in world X and `mapY` is strictly
decreasing in world Y. -/
theorem mapXY_orientation (xr yr : ℚ × ℚ) (width height padding : ℚ)
    (hx : xr.1 < xr.2) (hy : yr.1 < yr.2)
    (hw : 2 * padding < width) (hh : 2 * padding < height) :
    StrictMono (mapX xr width padding) ∧ StrictAnti (mapY yr height padding) := by
  constructor
  · intro a b hab
    have hpos : 0 < ((b - a) / (xr.2 - xr.1)) * (width - 2 * padding) :=
      mul_pos (div_pos (by linarith) (by linarith)) (by linarith)
    have key : (b - xr.1) / (xr.2 - xr.1) * (width - 2 * padding) -
        (a - xr.1) / (xr.2 - xr.1) * (width - 2 * padding) =
        (b - a) / (xr.2 - xr.1) * (width - 2 * padding) := by ring
    simp only [mapX]
    linarith [hpos, key]
  · intro a b hab
    have hpos : 0 < ((b - a) / (yr.2 - yr.1)) * (height - 2 * padding) :=
      mul_pos (div_pos (by linarith) (by linarith)) (by linarith)
    have key : (b - yr.1) / (yr.2 - yr.1) * (height - 2 * padding) -
        (a - yr.1) / (yr.2 - yr.1) * (height - 2 * padding) =
        (b - a) / (yr.2 - yr.1) * (height - 2 * padding) := by ring
    simp only [mapY]
    linarith [hpos, key]

/-- Witness for C2 on the spec's example configuration. -/
theorem mapXY_orientation_witness :
    ((0 : ℚ), (10 : ℚ)).1 < ((0 : ℚ), (10 : ℚ)).2 ∧
    StrictMono (mapX (0, 10) 800 40) ∧ StrictAnti (mapY (0, 1) 500 40) :=
  ⟨by norm_num,
   (mapXY_orientation (0, 10) (0, 1) 800 500 40 (by norm_num) (by norm_num)
      (by norm_num) (by norm_num)).1,
   (mapXY_orientation (0, 10) (0, 1) 800 500 40 (by norm_num) (by norm_num)
      (by norm_num) (by norm_num)).2⟩

/-- C3: the per-frame adjustments are exactly the composition
clamp-then-zoom-then-aspect, and with the aspect lock on at scene size
1920x1080, any final width of 600 yields height exactly 337.5. -/
theorem cameraAdjust_order :
    (∀ minW maxW minH maxH zoom maintain sceneW sceneH w0 h0,
      cameraAdjust minW maxW minH maxH zoom maintain sceneW sceneH w0 h0 =
        aspectStep maintain sceneW sceneH
          (zoomStep zoom (clampStep minW maxW minH maxH (w0, h0)))) ∧
    (∀ minW maxW minH maxH zoom w0 h0,
      (cameraAdjust minW maxW minH maxH zoom true 1920 1080 w0 h0).1 = 600 →
      (cameraAdjust minW maxW minH maxH zoom true 1920 1080 w0 h0).2 = 337.5) := by
  constructor
  · intro minW maxW minH maxH zoom maintain sceneW sceneH w0 h0
    simp only [cameraAdjust, clampStep, zoomStep, aspectStep]
    by_cases hz : zoom = 1 <;> by_cases hm : maintain <;> simp [hz, hm]
  · intro minW maxW minH maxH zoom w0 h0 hfin
    simp only [cameraAdjust] at hfin ⊢
    rw [hfin]
    norm_num

/-- Witness for C3: an adjustment whose final width is 600. -/
theorem cameraAdjust_order_witness :
    (cameraAdjust none none none none 1 true 1920 1080 600 100).1 = 600 ∧
    (cameraAdjust none none none none 1 true 1920 1080 600 100).2 = 337.5 :=
  ⟨by norm_num [cameraAdjust, applyMin, applyMax],
   cameraAdjust_order.2 none none none none 1 600 100
     (by norm_num [cameraAdjust, applyMin, applyMax])⟩

/-- C10: a size bound supplied as `0` is treated as absent (no clamp is
applied, so `maxWidth = 0` does not force the width to `0`), while every
strictly positive bound is enforced as `Math.max` for minima and `Math.min`
for maxima. -/
theorem camera_zero_bounds :
    (∀ v, applyMin (some 0) v = v) ∧
    (∀ v, applyMax (some 0) v = v) ∧
    (∀ b v, 0 < b → applyMin (some b) v = max v b) ∧
    (∀ b v, 0 < b → applyMax (some b) v = min v b) ∧
    (∀ zoom maintain sceneW sceneH w0 h0,
      cameraAdjust (some 0) (some 0) (some 0) (some 0) zoom maintain sceneW sceneH w0 h0 =
        cameraAdjust none none none none zoom maintain sceneW sceneH w0 h0) := by
  refine ⟨fun v => by simp [applyMin], fun v => by simp [applyMax],
    fun b v hb => by simp [applyMin, hb.ne'], fun b v hb => by simp [applyMax, hb.ne'],
    fun zoom maintain sceneW sceneH w0 h0 => by simp [cameraAdjust, applyMin, applyMax]⟩

/-- Witness for C10: a zero max bound leaves 7 alone; a positive min bound of 2 clamps 1 up. -/
theorem camera_zero_bounds_witness :
    applyMax (some 0) 7 = 7 ∧ (0 : ℚ) < 2 ∧ applyMin (some 2) 1 = max 1 2 :=
  ⟨camera_zero_bounds.2.1 7, by norm_num, camera_zero_bounds.2.2.1 2 1 (by norm_num)⟩

/-! ## ColorRamp (`getColor` in HydraulicLines.tsx lines 77-105 and
HydraulicCylinder2D.tsx lines 87-126) -/

/-- An RGB color as the numeric channel triple built by `getColor`
before hex serialization. -/
abbrev Color := ℚ × ℚ × ℚ

/-- `lerp` from `getColor`. -/
def lerp (a b t : ℚ) : ℚ := a + (b - a) * t

/-- The fixed 4-stop gradient of `getColor`:
blue, green at 0.33, yellow at 0.66, red. -/
def defaultStops : List (ℚ × Color) :=
  [(0, (0, 0, 255)), (33/100, (0, 255, 0)), (66/100, (255, 255, 0)), (1, (255, 0, 0))]

/-- The normalized ramp input `t = Math.max(0, Math.min(p, max)) / max`.
In JavaScript, when `max = 0` the numerator is `0` and `0/0` is `NaN`;
the missing finite value is modelled as `none`. -/
def tNorm (p maxP : ℚ) : Option ℚ :=
  if maxP = 0 then none else some (max 0 (min p maxP) / maxP)

/-- The stop-segment scan of `getColor`: the first adjacent stop pair
`[i, i+1]` with `t >= stops[i].offset && t <= stops[i+1].offset` is lerped
per channel; if no segment matches the fallback red `#ff0000` is returned.
A `NaN` input (`none`) compares false against every offset, so it always
falls through to the fallback. -/
def findStop : Option ℚ → List (ℚ × Color) → Color
  | some tv, (o1, c1) :: (o2, c2) :: rest =>
    if o1 ≤ tv ∧ tv ≤ o2 then
      let localT := (tv - o1) / (o2 - o1)
      (lerp c1.1 c2.1 localT, lerp c1.2.1 c2.2.1 localT, lerp c1.2.2 c2.2.2 localT)
    else findStop (some tv) ((o2, c2) :: rest)
  | some _, _ => (255, 0, 0)
  | none, _ => (255, 0, 0)

/-- `getColor(p)` with normalization bound `max`, producing the interpolated
RGB channel triple. -/
def getColor (p maxP : ℚ) : Color :=
  findStop (tNorm p maxP) defaultStops

/-! ## NiceStep (`getNiceStep` in unnamed/part_005 lines 94-104) -/

/-- `getNiceStep(range, targetTicks)`.  `rawStep = range/targetTicks`;
`mag = 10^floor(log10(rawStep))`; snap `rawStep/mag` to {1,2,5,10} at
thresholds {1.5, 3.5, 7.5}.  JavaScript float semantics at the edges,
modelled explicitly: `targetTicks = 0` gives an infinite/NaN `rawStep`
(`none`); `rawStep < 0` makes `Math.log10` return `NaN`, which propagates to
a `NaN` result (`none`); `rawStep = 0` gives `Math.log10(0) = -Infinity`,
hence `mag = 10^-Infinity = 0`, `normalized = 0/0 = NaN`, every threshold
comparison false, and the function returns `10 * mag = 0`. -/
def getNiceStep (range targetTicks : ℚ) : Option ℚ :=
  if targetTicks = 0 then none
  else
    let rawStep := range / targetTicks
    if rawStep = 0 then some 0
    else if rawStep < 0 then none
    else
      let mag : ℚ := (10 : ℚ) ^ (Int.log 10 rawStep)
      let normalized := rawStep / mag
      if normalized < 3/2 then some (1 * mag)
      else if normalized < 7/2 then some (2 * mag)
      else if normalized < 15/2 then some (5 * mag)
      else some (10 * mag)

/-! ## Claims C6, C7 -/

/-- C6 counterexample: the claim says any value with `max <= 0` yields the
first stop color blue `(0,0,255)`; but at `max = 0` the code divides `0/0`,
gets `NaN`, falls through every stop segment and returns the fallback red
`(255,0,0)`. -/
theorem getColor_max_zero_red :
    getColor 100 0 = (255, 0, 0) ∧ getColor 100 0 ≠ ((0 : ℚ), (0 : ℚ), (255 : ℚ)) := by
  constructor <;> decide

/-- C6 (amended): the ramp normalizes `t = clamp(value,0,max)/max` whenever
`max ≠ 0`; for `max < 0` this gives `t = 0` and the result is the first stop
color blue `(0,0,255)` for every value, while for `max = 0` the `0/0`
normalization is `NaN` and the ramp returns its fallback red `(255,0,0)`. -/
theorem getColor_nonpositive_max (p maxP : ℚ) :
    (maxP ≠ 0 → tNorm p maxP = some (max 0 (min p maxP) / maxP)) ∧
    (maxP < 0 → getColor p maxP = ((0 : ℚ), (0 : ℚ), (255 : ℚ))) ∧
    (maxP = 0 → getColor p maxP = ((255 : ℚ), (0 : ℚ), (0 : ℚ))) := by
  refine ⟨fun h => by simp [tNorm, h], fun h => ?_, fun h => by simp [getColor, tNorm, h, findStop]⟩
  have hmin : min p maxP ≤ maxP := min_le_right _ _
  have hnum : max 0 (min p maxP) = 0 := max_eq_left (by linarith [hmin])
  have ht : tNorm p maxP = some 0 := by
    simp [tNorm, h.ne, hnum]
  simp only [getColor, ht, defaultStops, findStop]
  norm_num [lerp]

/-- Witness for C6's amended statement at `max = -5` and `max = 0`. -/
theorem getColor_nonpositive_max_witness :
    (-5 : ℚ) < 0 ∧ getColor 7 (-5) = ((0 : ℚ), (0 : ℚ), (255 : ℚ)) ∧
    getColor 7 0 = ((255 : ℚ), (0 : ℚ), (0 : ℚ)) :=
  ⟨by norm_num, (getColor_nonpositive_max 7 (-5)).2.1 (by norm_num),
   (getColor_nonpositive_max 7 0).2.2 rfl⟩

/-- C7: the claim (and spec section 7) requires `range <= 0` to signal a
DomainError and never to silently return `0`.  The code signals nothing: at
`range = 0` it silently returns `0` (via `mag = 10^(-Infinity) = 0` and the
NaN threshold comparisons), and at `range < 0` it silently returns `NaN`. -/
theorem getNiceStep_no_domain_error :
    getNiceStep 0 5 = some 0 ∧ getNiceStep (-1) 5 = none := by
  constructor <;> norm_num [getNiceStep]

/-! ## PathSampler (`getPointOnPolyline` in HydraulicLines.tsx lines 20-58)

The source parses the SVG path string with a regex into a list of points and
then works on that list; the embedding starts from the parsed point list.
`Math.sqrt` is passed as an abstract parameter `sqrt : ℚ → ℚ` because exact
square roots leave `ℚ`; every theorem assumes only that `sqrt` is
nonnegative on nonnegative inputs and vanishes exactly at `0`. -/

/-- One entry of the `segments` array: endpoints, Euclidean length, and the
cumulative length of the preceding segments. -/
structure Seg where
  p1 : Pt
  p2 : Pt
  length : ℚ
  cumulative : ℚ
deriving DecidableEq, Repr

/-- The segment-building loop: for consecutive points, record
`dist = sqrt((p2.x-p1.x)^2 + (p2.y-p1.y)^2)` and the running total. -/
def mkSegments (sqrt : ℚ → ℚ) : List Pt → ℚ → List Seg
  | p1 :: p2 :: rest, cum =>
    let d := sqrt ((p2.x - p1.x) ^ 2 + (p2.y - p1.y) ^ 2)
    ⟨p1, p2, d, cum⟩ :: mkSegments sqrt (p2 :: rest) (cum + d)
  | _, _ => []

/-- `totalLength` accumulated by the loop: sum of all segment lengths. -/
def totalLength (sqrt : ℚ → ℚ) (coords : List Pt) : ℚ :=
  ((mkSegments sqrt coords 0).map Seg.length).sum

/-- The `segments.find(...)` predicate:
`targetLength >= s.cumulative && targetLength <= s.cumulative + s.length`. -/
def segPred (targetLength : ℚ) (s : Seg) : Bool :=
  decide (targetLength ≥ s.cumulative) && decide (targetLength ≤ s.cumulative + s.length)

/-- `getPointOnPolyline` on the parsed coordinates: fewer than 2 points
returns the `(0,0)` sentinel; otherwise locate the segment containing
`targetLength = t * totalLength` (falling back to the last segment, as the
`|| segments[segments.length - 1]` does) and interpolate inside it, guarding
the zero-length division (`segmentT = 0` when the segment length is 0). -/
def getPointOnPolyline (sqrt : ℚ → ℚ) (coords : List Pt) (t : ℚ) : Pt :=
  if coords.length < 2 then ⟨0, 0⟩
  else
    let segments := mkSegments sqrt coords 0
    let targetLength := t * totalLength sqrt coords
    let segment := (segments.find? (segPred targetLength)).getD
      (segments.getLastD ⟨⟨0, 0⟩, ⟨0, 0⟩, 0, 0⟩)
    let segmentOffset := targetLength - segment.cumulative
    let segmentT := if segment.length = 0 then 0 else segmentOffset / segment.length
    ⟨segment.p1.x + (segment.p2.x - segment.p1.x) * segmentT,
     segment.p1.y + (segment.p2.y - segment.p1.y) * segmentT⟩

/-! ## FlowAnimator (`renderDots` in HydraulicLines.tsx lines 111-143) -/

/-- JavaScript truncating remainder by 1: `x % 1 = x - trunc(x)`. -/
def jsRem1 (x : ℚ) : ℚ :=
  x - (if 0 ≤ x then (⌊x⌋ : ℚ) else (⌈x⌉ : ℚ))

/-- `let t = (frame * speed + initialOffset) % 1; if (t < 0) t += 1`. -/
def jsMod1 (x : ℚ) : ℚ :=
  if jsRem1 x < 0 then jsRem1 x + 1 else jsRem1 x

/-- The flow-marker positions produced by `renderDots(path, flow)`: nothing
at near-zero flow, else 8 dots placed along the path at wrapped parameters
`(frame * speed + i/8) % 1`. -/
def renderDots (sqrt : ℚ → ℚ) (frame : ℕ) (coords : List Pt) (flow maxFlow : ℚ) : List Pt :=
  if |flow| < 1/100 then []
  else
    let normFlow := max (-1) (min 1 (flow / maxFlow))
    let numDots : ℕ := 8
    let speed := normFlow * (1/100)
    (List.range numDots).map fun i =>
      let initialOffset := (i : ℚ) / (numDots : ℚ)
      let t := jsMod1 ((frame : ℚ) * speed + initialOffset)
      getPointOnPolyline sqrt coords t

/-! ### Path sampler lemmas -/

/-- Every recorded segment length is a `sqrt` of a sum of squares, hence nonnegative. -/
theorem mkSegments_length_nonneg (sqrt : ℚ → ℚ) (hs1 : ∀ x : ℚ, 0 ≤ x → 0 ≤ sqrt x) :
    ∀ (coords : List Pt) (c0 : ℚ), ∀ s ∈ mkSegments sqrt coords c0, 0 ≤ s.length := by
  intro coords
  induction coords with
  | nil => simp [mkSegments]
  | cons a tail ih =>
    cases tail with
    | nil => simp [mkSegments]
    | cons b rest =>
      intro c0 s hs
      simp only [mkSegments, List.mem_cons] at hs
      rcases hs with h | h
      · subst h
        exact hs1 _ (by positivity)
      · exact ih _ s h

/-- The sum of segment lengths is nonnegative. -/
theorem mkSegments_sum_nonneg (sqrt : ℚ → ℚ) (hs1 : ∀ x : ℚ, 0 ≤ x → 0 ≤ sqrt x)
    (coords : List Pt) (c0 : ℚ) :
    0 ≤ ((mkSegments sqrt coords c0).map Seg.length).sum := by
  refine List.sum_nonneg ?_
  intro x hx
  obtain ⟨s, hs, rfl⟩ := List.mem_map.mp hx
  exact mkSegments_length_nonneg sqrt hs1 coords c0 s hs

/-- If a total polyline length vanishes, every point of the polyline is equal
to every other (all points coincident). -/
theorem mkSegments_sum_zero_all_eq (sqrt : ℚ → ℚ)
    (hs1 : ∀ x : ℚ, 0 ≤ x → 0 ≤ sqrt x)
    (hs2 : ∀ x : ℚ, 0 ≤ x → (sqrt x = 0 ↔ x = 0)) :
    ∀ (coords : List Pt) (c0 : ℚ),
      ((mkSegments sqrt coords c0).map Seg.length).sum = 0 →
      ∀ p ∈ coords, ∀ q ∈ coords, p = q := by
  intro coords
  induction coords with
  | nil => simp
  | cons a tail ih =>
    cases tail with
    | nil => simp
    | cons b rest =>
      intro c0 hsum p hp q hq
      have harg : (0:ℚ) ≤ (b.x - a.x) ^ 2 + (b.y - a.y) ^ 2 := by positivity
      have hd : 0 ≤ sqrt ((b.x - a.x) ^ 2 + (b.y - a.y) ^ 2) := hs1 _ harg
      have hT : 0 ≤ ((mkSegments sqrt (b :: rest)
          (c0 + sqrt ((b.x - a.x) ^ 2 + (b.y - a.y) ^ 2))).map Seg.length).sum :=
        mkSegments_sum_nonneg sqrt hs1 _ _
      simp only [mkSegments, List.map_cons, List.sum_cons] at hsum
      have hd0 : sqrt ((b.x - a.x) ^ 2 + (b.y - a.y) ^ 2) = 0 := by linarith
      have hT0 : ((mkSegments sqrt (b :: rest)
          (c0 + sqrt ((b.x - a.x) ^ 2 + (b.y - a.y) ^ 2))).map Seg.length).sum = 0 := by linarith
      have hsq : (b.x - a.x) ^ 2 + (b.y - a.y) ^ 2 = 0 := (hs2 _ harg).mp hd0
      have hab : a = b := by
        have hx : b.x = a.x := by nlinarith [sq_nonneg (b.x - a.x), sq_nonneg (b.y - a.y)]
        have hy : b.y = a.y := by nlinarith [sq_nonneg (b.x - a.x), sq_nonneg (b.y - a.y)]
        cases a; cases b
        simp only [Pt.mk.injEq]
        exact ⟨hx.symm, hy.symm⟩
      have htail := ih _ hT0
      rcases List.mem_cons.mp hp with rfl | hp' <;> rcases List.mem_cons.mp hq with rfl | hq'
      · rfl
      · exact (hab.trans (htail b (List.mem_cons_self _ _) q hq')).symm ▸ rfl
      · exact ((hab.trans (htail b (List.mem_cons_self _ _) p hp')).symm)
      · exact htail p hp' q hq'

/-- When the located target length is `0`, the scan matches the very first
segment and interpolation returns the first point. -/
theorem pointOnPolyline_target_zero (sqrt : ℚ → ℚ)
    (hs1 : ∀ x : ℚ, 0 ≤ x → 0 ≤ sqrt x)
    (coords : List Pt) (t : ℚ) (h2 : 2 ≤ coords.length)
    (h0 : t * totalLength sqrt coords = 0) :
    getPointOnPolyline sqrt coords t = coords.head?.getD ⟨0, 0⟩ := by
  match coords, h2 with
  | a :: b :: rest, _ =>
    have hd : 0 ≤ sqrt ((b.x - a.x) ^ 2 + (b.y - a.y) ^ 2) := hs1 _ (by positivity)
    have hpred : segPred (t * totalLength sqrt (a :: b :: rest))
        ⟨a, b, sqrt ((b.x - a.x) ^ 2 + (b.y - a.y) ^ 2), 0⟩ = true := by
      simp only [segPred, h0, Bool.and_eq_true, decide_eq_true_eq]
      exact ⟨le_refl 0, by simpa using hd⟩
    simp only [getPointOnPolyline, List.length_cons, mkSegments]
    rw [if_neg (by omega)]
    rw [List.find?_cons_of_pos _ hpred]
    simp only [Option.getD_some, h0, List.head?_cons, Option.getD_some]
    have : (0 : ℚ) - 0 = 0 := by norm_num
    by_cases hz : sqrt ((b.x - a.x) ^ 2 + (b.y - a.y) ^ 2) = 0 <;>
      simp [hz, zero_div]

/-- C8: the path sampler never throws during frame evaluation (it is a total
function); fewer than 2 parsed points return the `(0,0)` sentinel, and a
path of total length `0` (all points coincident) returns its first point for
any `t`. -/
theorem pointOnPolyline_degenerate (sqrt : ℚ → ℚ)
    (hs1 : ∀ x : ℚ, 0 ≤ x → 0 ≤ sqrt x)
    (coords : List Pt) (t : ℚ) :
    (coords.length < 2 → getPointOnPolyline sqrt coords t = ⟨0, 0⟩) ∧
    (2 ≤ coords.length → totalLength sqrt coords = 0 →
      getPointOnPolyline sqrt coords t = coords.head?.getD ⟨0, 0⟩) := by
  constructor
  · intro h
    simp [getPointOnPolyline, h]
  · intro h2 hL
    exact pointOnPolyline_target_zero sqrt hs1 coords t h2 (by rw [hL, mul_zero])

/-- Witness for C8: the empty path yields the sentinel, and the coincident
two-point path yields its first point, under a concrete `sqrt` model. -/
theorem pointOnPolyline_degenerate_witness :
    (List.length ([] : List Pt) < 2 ∧
      getPointOnPolyline (fun x => if x ≤ 0 then 0 else 1) [] (1/2) = ⟨0, 0⟩) ∧
    (2 ≤ List.length [Pt.mk 3 4, Pt.mk 3 4] ∧
      totalLength (fun x => if x ≤ 0 then 0 else 1) [Pt.mk 3 4, Pt.mk 3 4] = 0 ∧
      getPointOnPolyline (fun x => if x ≤ 0 then 0 else 1) [Pt.mk 3 4, Pt.mk 3 4] (1/2) =
        ([Pt.mk 3 4, Pt.mk 3 4].head?).getD ⟨0, 0⟩) :=
  ⟨⟨by decide,
    (pointOnPolyline_degenerate (fun x => if x ≤ 0 then 0 else 1)
      (fun x hx => by dsimp only; split <;> norm_num) [] (1/2)).1 (by decide)⟩,
   ⟨by decide, by norm_num [totalLength, mkSegments],
    (pointOnPolyline_degenerate (fun x => if x ≤ 0 then 0 else 1)
      (fun x hx => by dsimp only; split <;> norm_num) [Pt.mk 3 4, Pt.mk 3 4] (1/2)).2
      (by decide) (by norm_num [totalLength, mkSegments])⟩⟩

/-- The `segments.find(...)` scan at the full total length: it stops at the
first segment whose cumulative range reaches the total, that segment has
positive length, and its endpoint is the last point of the polyline. -/
theorem find_at_total (sqrt : ℚ → ℚ)
    (hs1 : ∀ x : ℚ, 0 ≤ x → 0 ≤ sqrt x)
    (hs2 : ∀ x : ℚ, 0 ≤ x → (sqrt x = 0 ↔ x = 0)) :
    ∀ (rest : List Pt) (a b : Pt) (c0 : ℚ),
      0 < ((mkSegments sqrt (a :: b :: rest) c0).map Seg.length).sum →
      ∃ s, (mkSegments sqrt (a :: b :: rest) c0).find?
            (segPred (c0 + ((mkSegments sqrt (a :: b :: rest) c0).map Seg.length).sum)) = some s ∧
        0 < s.length ∧
        c0 + ((mkSegments sqrt (a :: b :: rest) c0).map Seg.length).sum =
          s.cumulative + s.length ∧
        s.p2 = (a :: b :: rest).getLast?.getD ⟨0, 0⟩ := by
  intro rest
  induction rest with
  | nil =>
    intro a b c0 hpos
    simp only [mkSegments, List.map_cons, List.map_nil, List.sum_cons, List.sum_nil,
      add_zero] at hpos ⊢
    refine ⟨⟨a, b, sqrt ((b.x - a.x) ^ 2 + (b.y - a.y) ^ 2), c0⟩, ?_, hpos, rfl, ?_⟩
    · rw [List.find?_cons_of_pos]
      simp only [segPred, Bool.and_eq_true, decide_eq_true_eq]
      exact ⟨by linarith, le_refl _⟩
    · simp
  | cons c rest' ih =>
    intro a b c0 hpos
    have harg : (0:ℚ) ≤ (b.x - a.x) ^ 2 + (b.y - a.y) ^ 2 := by positivity
    have hd : 0 ≤ sqrt ((b.x - a.x) ^ 2 + (b.y - a.y) ^ 2) := hs1 _ harg
    set D := sqrt ((b.x - a.x) ^ 2 + (b.y - a.y) ^ 2) with hD
    have hstep : mkSegments sqrt (a :: b :: c :: rest') c0 =
        ⟨a, b, D, c0⟩ :: mkSegments sqrt (b :: c :: rest') (c0 + D) := rfl
    rw [hstep] at hpos ⊢
    simp only [List.map_cons, List.sum_cons] at hpos ⊢
    set T := ((mkSegments sqrt (b :: c :: rest') (c0 + D)).map Seg.length).sum with hTdef
    have hT : 0 ≤ T := mkSegments_sum_nonneg sqrt hs1 _ _
    by_cases hT0 : T = 0
    · -- the head segment absorbs the whole total: later points all coincide
      have hDpos : 0 < D := by rw [hT0] at hpos; linarith [hpos]
      refine ⟨⟨a, b, D, c0⟩, ?_, hDpos, by rw [hT0]; ring, ?_⟩
      · rw [List.find?_cons_of_pos]
        simp only [segPred, Bool.and_eq_true, decide_eq_true_eq]
        refine ⟨by simp only [ge_iff_le]; linarith, ?_⟩
        simp only [hT0, add_zero]
        linarith
      · have hall := mkSegments_sum_zero_all_eq sqrt hs1 hs2 (b :: c :: rest') (c0 + D) hT0
        have hne : (b :: c :: rest') ≠ [] := by simp
        have hlast := List.getLast?_eq_getLast_of_ne_nil hne
        have hmem : (b :: c :: rest').getLast hne ∈ b :: c :: rest' := List.getLast_mem hne
        have hbl : (b :: c :: rest').getLast hne = b :=
          hall _ hmem b (List.mem_cons_self _ _)
        show b = (a :: b :: c :: rest').getLast?.getD ⟨0, 0⟩
        rw [List.getLast?_cons_cons, hlast, hbl]
        simp
    · -- the head segment is passed over; recurse into the tail
      have hTpos : 0 < T := lt_of_le_of_ne hT (Ne.symm hT0)
      have hpred : ¬(segPred (c0 + (D + T)) ⟨a, b, D, c0⟩ = true) := by
        simp only [segPred, Bool.and_eq_true, decide_eq_true_eq, not_and, not_le]
        intro _
        show c0 + D < c0 + (D + T)
        linarith
      rw [List.find?_cons_of_neg _ hpred]
      have hassoc : c0 + (D + T) = c0 + D + T := by ring
      rw [hassoc]
      obtain ⟨s, hfind, hlen, hsum, hp2⟩ := ih b c (c0 + D) hTpos
      refine ⟨s, hfind, hlen, hsum, ?_⟩
      rw [hp2]
      congr 1

/-- C4: for every polyline with at least 2 points, at least two of them
distinct, the arc-length sampler returns the first point of the path at
`t = 0` and the last point at `t = 1`. -/
theorem pointOnPolyline_endpoints (sqrt : ℚ → ℚ)
    (hs1 : ∀ x : ℚ, 0 ≤ x → 0 ≤ sqrt x)
    (hs2 : ∀ x : ℚ, 0 ≤ x → (sqrt x = 0 ↔ x = 0))
    (coords : List Pt) (h2 : 2 ≤ coords.length)
    (hdistinct : ∃ p ∈ coords, ∃ q ∈ coords, p ≠ q) :
    getPointOnPolyline sqrt coords 0 = coords.head?.getD ⟨0, 0⟩ ∧
    getPointOnPolyline sqrt coords 1 = coords.getLast?.getD ⟨0, 0⟩ := by
  refine ⟨pointOnPolyline_target_zero sqrt hs1 coords 0 h2 (by rw [zero_mul]), ?_⟩
  have hLpos : 0 < totalLength sqrt coords := by
    rcases lt_or_eq_of_le (mkSegments_sum_nonneg sqrt hs1 coords 0) with h | h
    · exact h
    · exfalso
      obtain ⟨p, hp, q, hq, hpq⟩ := hdistinct
      exact hpq (mkSegments_sum_zero_all_eq sqrt hs1 hs2 coords 0 h.symm p hp q hq)
  match coords, h2 with
  | a :: b :: rest, _ =>
    obtain ⟨s, hfind, hlen, hsum, hp2⟩ :=
      find_at_total sqrt hs1 hs2 rest a b 0 (by exact hLpos)
    simp only [getPointOnPolyline, List.length_cons]
    rw [if_neg (by omega)]
    rw [show (1 : ℚ) * totalLength sqrt (a :: b :: rest) =
      0 + ((mkSegments sqrt (a :: b :: rest) 0).map Seg.length).sum from by
        rw [totalLength]; ring]
    rw [hfind, Option.getD_some, if_neg hlen.ne']
    have hfrac : (0 + ((mkSegments sqrt (a :: b :: rest) 0).map Seg.length).sum -
        s.cumulative) / s.length = 1 := by
      rw [hsum]
      field_simp
    rw [hfrac]
    have hx : s.p1.x + (s.p2.x - s.p1.x) * 1 = s.p2.x := by ring
    have hy : s.p1.y + (s.p2.y - s.p1.y) * 1 = s.p2.y := by ring
    rw [hx, hy, ← hp2]

/-- Witness for C4 on the straight two-point path `(0,0) -> (1,0)`. -/
theorem pointOnPolyline_endpoints_witness :
    2 ≤ List.length [Pt.mk 0 0, Pt.mk 1 0] ∧
    (∃ p ∈ [Pt.mk 0 0, Pt.mk 1 0], ∃ q ∈ [Pt.mk 0 0, Pt.mk 1 0], p ≠ q) ∧
    getPointOnPolyline (fun x => if x ≤ 0 then 0 else 1) [Pt.mk 0 0, Pt.mk 1 0] 0 =
      ([Pt.mk 0 0, Pt.mk 1 0].head?).getD ⟨0, 0⟩ ∧
    getPointOnPolyline (fun x => if x ≤ 0 then 0 else 1) [Pt.mk 0 0, Pt.mk 1 0] 1 =
      ([Pt.mk 0 0, Pt.mk 1 0].getLast?).getD ⟨0, 0⟩ :=
  ⟨by decide, by decide,
   (pointOnPolyline_endpoints (fun x => if x ≤ 0 then 0 else 1)
      (fun x hx => by dsimp only; split <;> norm_num)
      (fun x hx => by
        dsimp only
        by_cases h : x ≤ 0
        · have hx0 : x = 0 := le_antisymm h hx
          simp [h, hx0]
        · push_neg at h
          rw [if_neg (not_le.mpr h)]
          constructor
          · intro h1
            exact absurd h1 (by norm_num)
          · intro h0
            exact absurd h0 h.ne')
      [Pt.mk 0 0, Pt.mk 1 0] (by decide) (by decide)).1,
   (pointOnPolyline_endpoints (fun x => if x ≤ 0 then 0 else 1)
      (fun x hx => by dsimp only; split <;> norm_num)
      (fun x hx => by
        dsimp only
        by_cases h : x ≤ 0
        · have hx0 : x = 0 := le_antisymm h hx
          simp [h, hx0]
        · push_neg at h
          rw [if_neg (not_le.mpr h)]
          constructor
          · intro h1
            exact absurd h1 (by norm_num)
          · intro h0
            exact absurd h0 h.ne')
      [Pt.mk 0 0, Pt.mk 1 0] (by decide) (by decide)).2⟩

/-- C9: when `|flow|` is below the near-zero threshold `0.01`, the flow
animator renders no markers at all (the marker list is empty, not
zero-speed markers); at or above the threshold it renders exactly its
`numDots = 8` markers. -/
theorem renderDots_suppression (sqrt : ℚ → ℚ) (frame : ℕ) (coords : List Pt)
    (flow maxFlow : ℚ) :
    (|flow| < 1/100 → renderDots sqrt frame coords flow maxFlow = []) ∧
    (1/100 ≤ |flow| → (renderDots sqrt frame coords flow maxFlow).length = 8) := by
  constructor
  · intro h
    rw [renderDots, if_pos h]
  · intro h
    rw [renderDots, if_neg (not_lt.mpr h)]
    rfl

/-- Witness for C9: flow 1/200 is suppressed, flow 50 yields 8 markers. -/
theorem renderDots_suppression_witness :
    (|(1/200 : ℚ)| < 1/100 ∧
      renderDots (fun x => x) 0 [Pt.mk 0 0, Pt.mk 1 0] (1/200) 100 = []) ∧
    ((1/100 : ℚ) ≤ |(50 : ℚ)| ∧
      (renderDots (fun x => x) 0 [Pt.mk 0 0, Pt.mk 1 0] 50 100).length = 8) :=
  ⟨⟨by rw [show |(1/200 : ℚ)| = 1/200 from abs_of_pos (by norm_num)]; norm_num,
    (renderDots_suppression (fun x => x) 0 [Pt.mk 0 0, Pt.mk 1 0] (1/200) 100).1
      (by rw [show |(1/200 : ℚ)| = 1/200 from abs_of_pos (by norm_num)]; norm_num)⟩,
   ⟨by norm_num,
    (renderDots_suppression (fun x => x) 0 [Pt.mk 0 0, Pt.mk 1 0] 50 100).2 (by norm_num)⟩⟩

/-! ## Tick generation (`getTicks` in unnamed/part_005 lines 171-178) -/

/-- The tick loop `for (let v = start; v <= max + 1e-9; v += step)`.
The guard `0 < step` reflects that the JavaScript loop only terminates for a
positive step (a non-positive step loops forever whenever it enters at all);
every claim about tick generation assumes a positive step. -/
def ticksFrom (maxTol step v : ℚ) : List ℚ :=
  if h : 0 < step ∧ v ≤ maxTol then
    v :: ticksFrom maxTol step (v + step)
  else []
termination_by (⌊(maxTol - v) / step⌋ + 1).toNat
decreasing_by
  obtain ⟨hs, hv⟩ := h
  have hfl : (0:ℤ) ≤ ⌊(maxTol - v) / step⌋ :=
    Int.floor_nonneg.mpr (div_nonneg (by linarith) hs.le)
  have heq : (maxTol - (v + step)) / step = (maxTol - v) / step - 1 := by
    rw [show maxTol - (v + step) = (maxTol - v) - step from by ring, sub_div,
      div_self hs.ne']
  rw [heq, Int.floor_sub_one]
  omega

/-- `getTicks(min, max, step)`: start at `Math.ceil(min/step)*step` and
collect every `step` until `max + 1e-9`. -/
def getTicks (min max step : ℚ) : List ℚ :=
  ticksFrom (max + 1/1000000000) step ((⌈min / step⌉ : ℚ) * step)

/-- Closed form of the tick loop: an arithmetic progression of
`(⌊(maxTol - v)/step⌋ + 1).toNat` terms. -/
theorem ticksFrom_eq (M step : ℚ) (hs : 0 < step) :
    ∀ (n : ℕ) (v : ℚ), (⌊(M - v) / step⌋ + 1).toNat = n →
    ticksFrom M step v = (List.range n).map (fun j : ℕ => v + (j : ℚ) * step) := by
  intro n
  induction n using Nat.strong_induction_on with
  | _ n ih =>
    intro v hn
    by_cases hv : v ≤ M
    · have hfl : (0:ℤ) ≤ ⌊(M - v) / step⌋ :=
        Int.floor_nonneg.mpr (div_nonneg (by linarith) hs.le)
      obtain ⟨m, rfl⟩ : ∃ m, n = m + 1 := ⟨n - 1, by omega⟩
      rw [ticksFrom, dif_pos ⟨hs, hv⟩]
      have hnext : (⌊(M - (v + step)) / step⌋ + 1).toNat = m := by
        have heq : (M - (v + step)) / step = (M - v) / step - 1 := by
          rw [show M - (v + step) = (M - v) - step from by ring, sub_div,
            div_self hs.ne']
        rw [heq, Int.floor_sub_one]
        omega
      rw [ih m (by omega) (v + step) hnext, List.range_succ_eq_map]
      simp only [List.map_cons, List.map_map]
      congr 1
      · norm_num
      · apply List.map_congr_left
        intro j hj
        simp only [Function.comp_apply]
        push_cast
        ring
    · rw [ticksFrom, dif_neg (by tauto)]
      have hneg : ⌊(M - v) / step⌋ < 0 :=
        Int.floor_lt.mpr (by push_cast; exact div_neg_of_neg_of_pos (by linarith) hs)
      have hn0 : n = 0 := by omega
      rw [hn0]
      simp

/-- C5: for `step > 0` and `min <= max`, `getTicks` returns exactly the
values `k*step` for integers `k >= ceil(min/step)` up to `max` (inclusive
within the loop's `1e-9` tolerance), in ascending order with no duplicates
(strict pairwise ascent). -/
theorem getTicks_exact (mn mx step : ℚ) (hstep : 0 < step) (hle : mn ≤ mx) :
    (∀ x ∈ getTicks mn mx step,
      ∃ k : ℤ, x = (k : ℚ) * step ∧ ⌈mn / step⌉ ≤ k ∧ x ≤ mx + 1/1000000000) ∧
    (∀ k : ℤ, ⌈mn / step⌉ ≤ k → (k : ℚ) * step ≤ mx →
      (k : ℚ) * step ∈ getTicks mn mx step) ∧
    (getTicks mn mx step).Pairwise (· < ·) := by
  have hclosed := ticksFrom_eq (mx + 1/1000000000) step hstep
    ((⌊((mx + 1/1000000000) - (⌈mn / step⌉ : ℚ) * step) / step⌋ + 1).toNat)
    ((⌈mn / step⌉ : ℚ) * step) rfl
  rw [getTicks]
  rw [hclosed]
  refine ⟨?_, ?_, ?_⟩
  · intro x hx
    obtain ⟨j, hj, rfl⟩ := List.mem_map.mp hx
    rw [List.mem_range] at hj
    refine ⟨⌈mn / step⌉ + j, by push_cast; ring, by omega, ?_⟩
    have hjle : (j : ℤ) ≤ ⌊((mx + 1/1000000000) - (⌈mn / step⌉ : ℚ) * step) / step⌋ := by
      have h1 := Int.lt_toNat.mp hj
      omega
    have hjq : (j : ℚ) ≤ ((mx + 1/1000000000) - (⌈mn / step⌉ : ℚ) * step) / step := by
      exact_mod_cast le_trans (by exact_mod_cast hjle) (Int.floor_le _)
    have := (le_div_iff₀ hstep).mp hjq
    linarith
  · intro k hk hkle
    have hj0 : (0:ℤ) ≤ k - ⌈mn / step⌉ := by omega
    refine List.mem_map.mpr ⟨(k - ⌈mn / step⌉).toNat, ?_, ?_⟩
    · rw [List.mem_range, Int.lt_toNat]
      have hq : ((k - ⌈mn / step⌉ : ℤ) : ℚ) ≤
          ((mx + 1/1000000000) - (⌈mn / step⌉ : ℚ) * step) / step := by
        rw [le_div_iff₀ hstep]
        push_cast
        nlinarith [hkle]
      have := Int.le_floor.mpr hq
      omega
    · have hcast : (((k - ⌈mn / step⌉).toNat : ℕ) : ℚ) = (k : ℚ) - (⌈mn / step⌉ : ℚ) := by
        have h1 := Int.toNat_of_nonneg hj0
        exact_mod_cast congrArg (fun z : ℤ => (z : ℚ)) h1
      rw [hcast]
      ring
  · rw [List.pairwise_map]
    refine (List.pairwise_lt_range _).imp ?_
    intro a b hab
    have : (a : ℚ) < b := by exact_mod_cast hab
    have := mul_lt_mul_of_pos_right this hstep
    linarith

/-- Witness for C5 on `getTicks 0 1 (1/2)`. -/
theorem getTicks_exact_witness :
    (0 : ℚ) < 1/2 ∧ (0 : ℚ) ≤ 1 ∧
    ((1 : ℤ) : ℚ) * (1/2) ∈ getTicks 0 1 (1/2) ∧
    (getTicks 0 1 (1/2)).Pairwise (· < ·) :=
  ⟨by norm_num, by norm_num,
   (getTicks_exact 0 1 (1/2) (by norm_num) (by norm_num)).2.1 1 (by norm_num)
     (by push_cast; norm_num),
   (getTicks_exact 0 1 (1/2) (by norm_num) (by norm_num)).2.2⟩
